import Mathlib

/-!
Verification of the hybrid lexical/semantic retrieval core
(`app/rag/hybrid_retriever.py`): a shallow embedding of the
`BM25Retriever` class and of the module-level fusion helpers
`normalize_scores` and `combine_results`, together with proofs of the
specified properties.

Modelling conventions:
* Python `float` arithmetic is modelled by exact arithmetic: `ℚ` for the
  fusion helpers (which use only field operations) and `ℝ` for the BM25
  engine (whose idf weights use `math.log`, modelled by `Real.log`).
* Python exceptions (`ZeroDivisionError` raised by `x / 0`) are modelled
  by `Option`: `none` is the raised error surfaced to the caller.
* `list.sort(key=..., reverse=True)` on `(index, score)` pairs is a
  stable sort, descending by score (CPython documents that `reverse=True`
  preserves the original relative order of equal keys).  A stable sort is
  uniquely determined by that contract, so it is modelled by the
  structural stable insertion sort `sortByScoreDesc` below, which is
  proved to sort descending by score (`sortByScoreDesc_pairwise`), to
  permute its input (`sortByScoreDesc_perm`), and to be the identity on
  already-sorted input (`sortByScoreDesc_of_sorted`); stability is by
  construction (an element is inserted in front of the first
  not-strictly-greater score, i.e. earlier elements precede later ones of
  equal score).
* The iteration order of the Python `set` union in `combine_results` is
  implementation-defined; it is modelled by an explicit enumeration
  parameter `order`, constrained to be a permutation of the union of the
  document indices of the two input lists.
-/

namespace HybridRetriever

/-- Insert a pair into a list sorted descending by second component, in
front of the first element whose score is not strictly greater.  This is
the insertion step of the stable descending-by-score sort. -/
def insertDesc {α β : Type} [LinearOrder β] (x : α × β) : List (α × β) → List (α × β)
  | [] => [x]
  | y :: ys => if x.2 < y.2 then y :: insertDesc x ys else x :: y :: ys

/-- Stable sort, descending by second component: the model of
`lst.sort(key=lambda x: x[1], reverse=True)`. -/
def sortByScoreDesc {α β : Type} [LinearOrder β] (l : List (α × β)) : List (α × β) :=
  l.foldr insertDesc []

/-- Test of the regex class `[一-鿿]` used by `_tokenize` for
ideographic (CJK) characters. -/
def isCJK (c : Char) : Bool :=
  decide (0x4e00 ≤ c.toNat) && decide (c.toNat ≤ 0x9fff)

/-- Test for a lowercase ASCII letter (the regex class `[a-zA-Z]` applied
to the `text.lower()`-cased text). -/
def isLowerAlpha (c : Char) : Bool :=
  decide ('a' ≤ c) && decide (c ≤ 'z')

/-- Maximal runs of ASCII letters in an (already lowercased) character
stream, as produced by `re.findall(r'[a-zA-Z]+', text.lower())`.  The
second argument accumulates the current run in reverse. -/
def latinRuns : List Char → List Char → List String
  | [], acc => if acc.isEmpty then [] else [String.mk acc.reverse]
  | c :: cs, acc =>
    if isLowerAlpha c then latinRuns cs (c :: acc)
    else if acc.isEmpty then latinRuns cs acc
    else String.mk acc.reverse :: latinRuns cs []

/-- `BM25Retriever._tokenize`: one token per CJK character (in order of
occurrence), followed by one token per maximal run of Latin letters of
the lowercased text.  (Lean's `Char.toLower` lowercases ASCII letters,
which matches Python `str.lower` on the `[a-zA-Z]` letters the second
regex can retain.) -/
def tokenize (text : String) : List String :=
  (text.data.filter isCJK).map (fun c => String.mk [c]) ++
    latinRuns (text.data.map Char.toLower) []

/-- The state stored by `BM25Retriever.__init__`: the document collection
and the three tuning parameters.  The derived fields (`tokenized_docs`,
`idf`, `avg_doc_length`) are functions of these and are defined below. -/
structure BM25Retriever where
  documents : List String
  k1 : ℝ
  b : ℝ
  epsilon : ℝ

namespace BM25Retriever

/-- `self.tokenized_docs = [self._tokenize(doc) for doc in documents]`. -/
def tokenized_docs (r : BM25Retriever) : List (List String) :=
  r.documents.map tokenize

/-- Document frequency of a term: the number of documents containing it at
least once (`df` in `_build_idf`, where each document contributes its set
of distinct tokens once). -/
def df (r : BM25Retriever) (t : String) : ℕ :=
  (r.tokenized_docs.filter (fun d => t ∈ d)).length

/-- The key set of the `self.idf` dictionary: the distinct tokens occurring
in at least one document. -/
def vocabList (r : BM25Retriever) : List String :=
  r.tokenized_docs.flatten.dedup

/-- The un-floored idf value computed by `_build_idf`:
`log((N - df + 0.5) / (df + 0.5) + 1.0)` with `N` the number of documents. -/
noncomputable def raw_idf (r : BM25Retriever) (t : String) : ℝ :=
  Real.log (((r.tokenized_docs.length : ℝ) - (r.df t : ℝ) + 0.5) / ((r.df t : ℝ) + 0.5) + 1.0)

/-- `self._max_idf = max(idf.values()) if idf else 0.0`. -/
noncomputable def max_idf (r : BM25Retriever) : ℝ :=
  ((r.vocabList.map r.raw_idf).max?).getD 0

/-- The floored idf value stored in `self.idf` for a vocabulary term:
`max(idf[term], self._max_idf * self.epsilon)`.  (`_score_document` reads
it only for terms with positive document frequency.) -/
noncomputable def idf (r : BM25Retriever) (t : String) : ℝ :=
  max (r.raw_idf t) (r.max_idf * r.epsilon)

/-- `self.avg_doc_length = sum(len(tokens) for tokens in self.tokenized_docs)
/ len(self.tokenized_docs)`. -/
noncomputable def avg_doc_length (r : BM25Retriever) : ℝ :=
  ((r.tokenized_docs.map List.length).sum : ℝ) / (r.tokenized_docs.length : ℝ)

/-- `length_norm = 1 - self.b + self.b * (doc_length / self.avg_doc_length)`
from `_score_document`. -/
noncomputable def length_norm (r : BM25Retriever) (doc_length : ℕ) : ℝ :=
  1 - r.b + r.b * ((doc_length : ℝ) / r.avg_doc_length)

/-- One token's addend in `_score_document`:
`idf * (tf * (k1 + 1)) / (tf + k1 * length_norm)`. -/
noncomputable def token_contribution (r : BM25Retriever) (idfv : ℝ) (tf : ℕ)
    (doc_length : ℕ) : ℝ :=
  idfv * ((tf : ℝ) * (r.k1 + 1)) / ((tf : ℝ) + r.k1 * r.length_norm doc_length)

/-- One iteration of the query-token loop of `_score_document`: the score
accumulator gains the token's contribution when the token occurs in the
document (`token in doc_tf`) and in the idf table (`token in self.idf`,
i.e. it has positive document frequency). -/
noncomputable def score_step (r : BM25Retriever) (doc_tokens : List String)
    (doc_length : ℕ) (score : ℝ) (token : String) : ℝ :=
  if 0 < doc_tokens.count token ∧ 0 < r.df token then
    score + r.token_contribution (r.idf token) (doc_tokens.count token) doc_length
  else score

/-- `BM25Retriever._score_document`. -/
noncomputable def score_document (r : BM25Retriever) (query_tokens doc_tokens : List String)
    (doc_length : ℕ) : ℝ :=
  query_tokens.foldl (r.score_step doc_tokens doc_length) 0

/-- `BM25Retriever.retrieve`: score every document, stable-sort descending
by score, return the first `top_k` pairs. -/
noncomputable def retrieve (r : BM25Retriever) (query : String) (top_k : ℕ) :
    List (ℕ × ℝ) :=
  let query_tokens := tokenize query
  let scores := r.tokenized_docs.enum.map
    (fun p => (p.1, r.score_document query_tokens p.2 p.2.length))
  (sortByScoreDesc scores).take top_k

end BM25Retriever

/-- `BM25Retriever.__init__` as a fallible constructor: with an empty
document list the assignment of `avg_doc_length` divides by
`len(self.tokenized_docs) = 0` and raises `ZeroDivisionError` (`none`);
otherwise construction succeeds and stores the arguments. -/
def construct (documents : List String) (k1 b epsilon : ℝ) : Option BM25Retriever :=
  if documents.isEmpty then none
  else some ⟨documents, k1, b, epsilon⟩

/-- Lookup in `dict(pairs)` with default `0.0` (`.get(idx, 0.0)`): the
dict is built by binding the pairs in order, so for duplicate keys the
last binding wins. -/
def dictGet (pairs : List (ℤ × ℚ)) (idx : ℤ) : ℚ :=
  pairs.foldl (fun acc p => if p.1 = idx then p.2 else acc) 0

/-- The members of `all_indices = set(semantic_dict.keys()) | set(bm25_dict.keys())`
in `combine_results`, as a duplicate-free list. -/
def indexUnion (semantic_results bm25_results : List (ℤ × ℚ)) : List ℤ :=
  (semantic_results.map Prod.fst ++ bm25_results.map Prod.fst).dedup

/-- A list is a valid iteration order of the Python set `all_indices` iff
it enumerates exactly its members, each once. -/
abbrev validOrder (semantic_results bm25_results : List (ℤ × ℚ)) (order : List ℤ) : Prop :=
  order.Perm (indexUnion semantic_results bm25_results)

/-- The `combined_scores` list built by the loop of `combine_results`, for
given (already renormalized) weights, in the given iteration order. -/
def fusedScores (order : List ℤ) (semantic_results bm25_results : List (ℤ × ℚ))
    (sw bw : ℚ) : List (ℤ × ℚ) :=
  order.map (fun idx => (idx, sw * dictGet semantic_results idx + bw * dictGet bm25_results idx))

/-- `combine_results`, parameterized by the iteration order of the index
set union.  When both weights sum to `0` the in-place renormalization
`semantic_weight /= total_weight` raises `ZeroDivisionError` (`none`). -/
def combine_results (order : List ℤ) (semantic_results bm25_results : List (ℤ × ℚ))
    (semantic_weight bm25_weight : ℚ) (top_k : ℕ) : Option (List (ℤ × ℚ)) :=
  let total_weight := semantic_weight + bm25_weight
  if total_weight = 0 then none
  else
    some ((sortByScoreDesc (fusedScores order semantic_results bm25_results
        (semantic_weight / total_weight) (bm25_weight / total_weight))).take top_k)

/-- `normalize_scores`: min-max scaling to `[0, 1]`, the all-equal case
mapping to all ones.  `min_score = min(scores)` and `max_score = max(scores)`
of the non-empty Python list `s :: rest` are the folds `rest.foldl min s`
and `rest.foldl max s`, written inline. -/
def normalize_scores : List ℚ → List ℚ
  | [] => []
  | s :: rest =>
    if rest.foldl max s = rest.foldl min s then List.replicate (s :: rest).length 1
    else (s :: rest).map
      (fun score => (score - rest.foldl min s) / (rest.foldl max s - rest.foldl min s))

/-- The ordering property claimed by the spec for `combine_results` output:
strictly descending fused scores, with equal scores ordered by ascending
document index. -/
def descWithTieAsc (l : List (ℤ × ℚ)) : Prop :=
  l.Pairwise (fun a b => b.2 < a.2 ∨ (a.2 = b.2 ∧ a.1 < b.1))

/-- Descending-score ordering (the comparator of the sort, as a relation). -/
def scoreDesc (a b : ℤ × ℚ) : Prop := b.2 ≤ a.2

/-- The degenerate result of `retrieve` for a query with no vocabulary
overlap: every document index in original order, each with score `0.0`. -/
def zeroScored (n : ℕ) : List (ℕ × ℝ) :=
  (List.range n).map (fun i => (i, (0 : ℝ)))

/-- The query's tokens share no token with the ranker's vocabulary. -/
def noVocabOverlap (r : BM25Retriever) (query : String) : Bool :=
  (tokenize query).all (fun t => r.df t == 0)

/-- Every score in a retrieval result is non-negative. -/
def nonnegScores (l : List (ℕ × ℝ)) : Prop :=
  List.Forall (fun p => 0 ≤ p.2) l

/-- Membership in the unit interval, for the normalization bounds. -/
def inUnitInterval (x : ℚ) : Prop := 0 ≤ x ∧ x ≤ 1

/-- The three-document corpus of the end-to-end scenario. -/
def scenarioDocs : List String :=
  ["深度学习在医学图像分割中的应用", "卷积神经网络在计算机视觉中的研究",
   "自然语言处理技术的发展与挑战"]

/-- The BM25 ranker of the end-to-end scenario, constructed with the
default parameters `k1 = 1.2`, `b = 0.75`, `epsilon = 0.25`. -/
def scenarioRetriever : BM25Retriever := ⟨scenarioDocs, 1.2, 0.75, 0.25⟩

/-! ## Properties of the stable descending sort -/

theorem insertDesc_perm {α β : Type} [LinearOrder β] (x : α × β) (l : List (α × β)) :
    List.Perm (insertDesc x l) (x :: l) := by
  induction l with
  | nil => rfl
  | cons y ys ih =>
    unfold insertDesc
    split
    · exact (ih.cons y).trans (List.Perm.swap x y ys)
    · rfl

theorem sortByScoreDesc_perm {α β : Type} [LinearOrder β] (l : List (α × β)) :
    List.Perm (sortByScoreDesc l) l := by
  induction l with
  | nil => rfl
  | cons x xs ih => exact (insertDesc_perm x (sortByScoreDesc xs)).trans (ih.cons x)

theorem insertDesc_pairwise {α β : Type} [LinearOrder β] (x : α × β) {l : List (α × β)}
    (h : l.Pairwise (fun a b => b.2 ≤ a.2)) :
    (insertDesc x l).Pairwise (fun a b => b.2 ≤ a.2) := by
  induction l with
  | nil => simp [insertDesc]
  | cons y ys ih =>
    rw [List.pairwise_cons] at h
    unfold insertDesc
    split
    · rename_i hlt
      rw [List.pairwise_cons]
      refine ⟨fun z hz => ?_, ih h.2⟩
      rcases List.mem_cons.mp ((insertDesc_perm x ys).mem_iff.mp hz) with hzx | hzy
      · rw [hzx]; exact le_of_lt hlt
      · exact h.1 z hzy
    · rename_i hge
      rw [List.pairwise_cons]
      refine ⟨fun z hz => ?_, List.pairwise_cons.mpr h⟩
      rcases List.mem_cons.mp hz with hzy | hzy
      · rw [hzy]; exact not_lt.mp hge
      · exact le_trans (h.1 z hzy) (not_lt.mp hge)

theorem sortByScoreDesc_pairwise {α β : Type} [LinearOrder β] (l : List (α × β)) :
    (sortByScoreDesc l).Pairwise (fun a b => b.2 ≤ a.2) := by
  induction l with
  | nil => exact List.Pairwise.nil
  | cons x xs ih => exact insertDesc_pairwise x ih

theorem sortByScoreDesc_of_sorted {α β : Type} [LinearOrder β] {l : List (α × β)}
    (h : l.Pairwise (fun a b => b.2 ≤ a.2)) : sortByScoreDesc l = l := by
  induction l with
  | nil => rfl
  | cons x xs ih =>
    rw [List.pairwise_cons] at h
    show insertDesc x (sortByScoreDesc xs) = x :: xs
    rw [ih h.2]
    cases xs with
    | nil => rfl
    | cons y ys =>
      unfold insertDesc
      rw [if_neg (not_lt.mpr (h.1 y (by simp)))]

/-! ## Claims about score fusion -/

/-- C1: for every valid iteration order of the index-set union,
`combine_results` on `[(0, 0.95), (1, 0.70)]` and `[(0, 0.85), (2, 0.65)]`
with weights `0.7`/`0.3` and `top_k = 3` returns exactly the three pairs
`(0, 0.92)`, `(1, 0.49)`, `(2, 0.195)`, in that order. -/
theorem c1_fusion_scenario (order : List ℤ)
    (h : validOrder [(0, 0.95), (1, 0.70)] [(0, 0.85), (2, 0.65)] order) :
    combine_results order [(0, 0.95), (1, 0.70)] [(0, 0.85), (2, 0.65)] 0.7 0.3 3 =
      some [(0, 0.92), (1, 0.49), (2, 0.195)] := by
  have hp : order.Perm [1, 0, 2] := by
    have h' : order.Perm (indexUnion [(0, 0.95), (1, 0.70)] [(0, 0.85), (2, 0.65)]) := h
    have e : indexUnion [(0, 0.95), (1, 0.70)] [(0, 0.85), (2, 0.65)] = [1, 0, 2] := by
      norm_num [indexUnion, List.dedup]
    rwa [e] at h'
  have hlen := hp.length_eq
  match order, hp, hlen with
  | [a, b, c], hp, _ =>
    have ha : a = 1 ∨ a = 0 ∨ a = 2 := by simpa using hp.mem_iff.mp (by simp)
    have hb : b = 1 ∨ b = 0 ∨ b = 2 := by simpa using hp.mem_iff.mp (by simp)
    have hc : c = 1 ∨ c = 0 ∨ c = 2 := by simpa using hp.mem_iff.mp (by simp)
    rcases ha with rfl | rfl | rfl <;> rcases hb with rfl | rfl | rfl <;>
      rcases hc with rfl | rfl | rfl <;>
      first
        | exact absurd hp (by decide)
        | norm_num [combine_results, fusedScores, dictGet, sortByScoreDesc, insertDesc]

theorem c1_witness :
    validOrder [(0, 0.95), (1, 0.70)] [(0, 0.85), (2, 0.65)] [0, 1, 2] ∧
    combine_results [0, 1, 2] [(0, 0.95), (1, 0.70)] [(0, 0.85), (2, 0.65)] 0.7 0.3 3 =
      some [(0, 0.92), (1, 0.49), (2, 0.195)] :=
  ⟨by
    show List.Perm [0, 1, 2] (indexUnion [(0, 0.95), (1, 0.70)] [(0, 0.85), (2, 0.65)])
    have e : indexUnion [(0, 0.95), (1, 0.70)] [(0, 0.85), (2, 0.65)] = [1, 0, 2] := by
      norm_num [indexUnion, List.dedup]
    rw [e]
    exact (List.Perm.swap 0 1 [2]).symm,
   c1_fusion_scenario [0, 1, 2] (by
    show List.Perm [0, 1, 2] (indexUnion [(0, 0.95), (1, 0.70)] [(0, 0.85), (2, 0.65)])
    have e : indexUnion [(0, 0.95), (1, 0.70)] [(0, 0.85), (2, 0.65)] = [1, 0, 2] := by
      norm_num [indexUnion, List.dedup]
    rw [e]
    exact (List.Perm.swap 0 1 [2]).symm)⟩

/-- C3, counterexample: with the valid iteration order `[1, 0]` of the
union `{0, 1}`, equal fused scores come out ordered by descending index,
so the ascending-index tie-break claimed for all inputs fails. -/
theorem c3_counterexample :
    validOrder [(0, 1), (1, 1)] [] [1, 0] ∧
    combine_results [1, 0] [(0, 1), (1, 1)] [] 1 1 5 = some [(1, 1/2), (0, 1/2)] ∧
    ¬ descWithTieAsc [(1, 1/2), (0, 1/2)] := by
  refine ⟨?_, ?_, fun hcontra => ?_⟩
  · show List.Perm [1, 0] (indexUnion [(0, 1), (1, 1)] [])
    have e : indexUnion [(0, 1), (1, 1)] [] = [0, 1] := by norm_num [indexUnion, List.dedup]
    rw [e]
    exact List.Perm.swap 0 1 []
  · norm_num [combine_results, fusedScores, dictGet, sortByScoreDesc, insertDesc]
  rw [descWithTieAsc, List.pairwise_cons] at hcontra
  have := hcontra.1 (0, 1/2) (by simp)
  rcases this with hlt | ⟨-, hidx⟩
  · exact absurd hlt (by norm_num)
  · exact absurd hidx (by norm_num)

/-- C3, amended: the output of `combine_results` is sorted in descending
order of fused score (for every iteration order of the index union); the
relative order of pairs with equal fused scores follows the iteration
order of the set union and is not an ascending-index tie-break. -/
theorem c3_sorted_descending (order : List ℤ) (s b : List (ℤ × ℚ)) (w1 w2 : ℚ) (k : ℕ)
    (res : List (ℤ × ℚ)) (h : combine_results order s b w1 w2 k = some res) :
    res.Pairwise scoreDesc := by
  simp only [combine_results] at h
  split at h
  · exact absurd h (by simp)
  · have := Option.some.inj h
    rw [← this]
    exact List.Pairwise.sublist (List.take_sublist _ _) (sortByScoreDesc_pairwise _)

theorem c3_witness :
    combine_results [0, 1] [(0, 1), (1, 2)] [] 1 1 5 = some [(1, 1), (0, 1/2)] ∧
    List.Pairwise scoreDesc [(1, 1), (0, 1/2)] :=
  ⟨by norm_num [combine_results, fusedScores, dictGet, sortByScoreDesc, insertDesc],
   c3_sorted_descending [0, 1] [(0, 1), (1, 2)] [] 1 1 5 [(1, 1), (0, 1/2)]
    (by norm_num [combine_results, fusedScores, dictGet, sortByScoreDesc, insertDesc])⟩

/-- C4: constructing a `BM25Retriever` with an empty document list always
fails fast (the error is surfaced to the caller as `none`); construction
with at least one document succeeds. -/
theorem c4_empty_construction :
    (∀ k1 b epsilon : ℝ, construct [] k1 b epsilon = none) ∧
    (∀ (documents : List String) (k1 b epsilon : ℝ),
      documents ≠ [] → (construct documents k1 b epsilon).isSome = true) := by
  constructor
  · intro k1 b eps; rfl
  · intro docs k1 b eps hne
    unfold construct
    rw [if_neg (by simpa [List.isEmpty_iff] using hne)]
    rfl

theorem c4_witness :
    construct [] 1.2 0.75 0.25 = none ∧
    (["a"] : List String) ≠ [] ∧ (construct ["a"] 1.2 0.75 0.25).isSome = true :=
  ⟨c4_empty_construction.1 1.2 0.75 0.25, by decide,
    c4_empty_construction.2 ["a"] 1.2 0.75 0.25 (by decide)⟩

/-- C5: `combine_results` with both weights `0` always fails (`none`, the
`ZeroDivisionError` of the renormalization); with non-negative weights at
least one of which is positive, the weights are renormalized to sum to `1`
and the fused scores are computed from the renormalized weights. -/
theorem c5_zero_weights (order₀ : List ℤ) (s₀ b₀ : List (ℤ × ℚ)) (k₀ : ℕ)
    (order : List ℤ) (s b : List (ℤ × ℚ)) (w1 w2 : ℚ) (k : ℕ)
    (h1 : 0 ≤ w1) (h2 : 0 ≤ w2) (h3 : 0 < w1 ∨ 0 < w2) :
    combine_results order₀ s₀ b₀ 0 0 k₀ = none ∧
    w1 / (w1 + w2) + w2 / (w1 + w2) = 1 ∧
    combine_results order s b w1 w2 k =
      some ((sortByScoreDesc (fusedScores order s b
        (w1 / (w1 + w2)) (w2 / (w1 + w2)))).take k) := by
  have ht : 0 < w1 + w2 := by rcases h3 with h | h <;> linarith
  have hne : w1 + w2 ≠ 0 := ne_of_gt ht
  refine ⟨by norm_num [combine_results], ?_, ?_⟩
  · field_simp
  · simp only [combine_results]
    rw [if_neg hne]

theorem c5_witness :
    (0 : ℚ) ≤ 2 ∧ (0 : ℚ) ≤ 0 ∧ ((0 : ℚ) < 2 ∨ (0 : ℚ) < 0) ∧
    (combine_results [0] [(0, 1)] [] 0 0 5 = none ∧
      (2 : ℚ) / (2 + 0) + 0 / (2 + 0) = 1 ∧
      combine_results [0] [(0, 1)] [] 2 0 5 =
        some ((sortByScoreDesc (fusedScores [0] [(0, 1)] []
          (2 / (2 + 0)) (0 / (2 + 0)))).take 5)) :=
  ⟨by norm_num, le_refl 0, Or.inl (by norm_num),
    c5_zero_weights [0] [(0, 1)] [] 5 [0] [(0, 1)] [] 2 0 5 (by norm_num) (le_refl 0)
      (Or.inl (by norm_num))⟩

/-- C7: `combine_results` is invariant under scaling both weights by any
positive factor; in particular weights `(7, 3)` and `(0.35, 0.15)` give
exactly the result of `(0.7, 0.3)`. -/
theorem c7_scale_invariance :
    (∀ (order : List ℤ) (s b : List (ℤ × ℚ)) (w1 w2 c : ℚ) (k : ℕ), 0 < c →
      combine_results order s b (c * w1) (c * w2) k =
        combine_results order s b w1 w2 k) ∧
    (∀ (order : List ℤ) (s b : List (ℤ × ℚ)) (k : ℕ),
      combine_results order s b 7 3 k = combine_results order s b 0.7 0.3 k ∧
      combine_results order s b 0.35 0.15 k = combine_results order s b 0.7 0.3 k) := by
  have main : ∀ (order : List ℤ) (s b : List (ℤ × ℚ)) (w1 w2 c : ℚ) (k : ℕ), c ≠ 0 →
      combine_results order s b (c * w1) (c * w2) k =
        combine_results order s b w1 w2 k := by
    intro order s b w1 w2 c k hc
    simp only [combine_results]
    rcases eq_or_ne (w1 + w2) 0 with h0 | h0
    · rw [if_pos (by rw [← mul_add, h0, mul_zero]), if_pos h0]
    · rw [if_neg (by rw [← mul_add]; exact mul_ne_zero hc h0), if_neg h0,
        ← mul_add, mul_div_mul_left w1 (w1 + w2) hc, mul_div_mul_left w2 (w1 + w2) hc]
  refine ⟨fun order s b w1 w2 c k hc => main order s b w1 w2 c k (ne_of_gt hc),
    fun order s b k => ⟨?_, ?_⟩⟩
  · have e1 : (7 : ℚ) = 10 * 0.7 := by norm_num
    have e2 : (3 : ℚ) = 10 * 0.3 := by norm_num
    rw [e1, e2]; exact main order s b 0.7 0.3 10 k (by norm_num)
  · have e1 : (0.35 : ℚ) = (1/2) * 0.7 := by norm_num
    have e2 : (0.15 : ℚ) = (1/2) * 0.3 := by norm_num
    rw [e1, e2]; exact main order s b 0.7 0.3 (1/2) k (by norm_num)

theorem c7_witness :
    (0 : ℚ) < 2 ∧
    combine_results [0] [(0, 1)] [] (2 * 0.7) (2 * 0.3) 5 =
      combine_results [0] [(0, 1)] [] 0.7 0.3 5 :=
  ⟨by norm_num, c7_scale_invariance.1 [0] [(0, 1)] [] 0.7 0.3 2 5 (by norm_num)⟩

/-! ## Normalization (claim C9) -/

theorem foldl_min_le_init {β : Type} [LinearOrder β] (l : List β) (a : β) :
    l.foldl min a ≤ a := by
  induction l generalizing a with
  | nil => exact le_refl a
  | cons y ys ih => exact le_trans (ih (min a y)) (min_le_left a y)

theorem foldl_min_le_mem {β : Type} [LinearOrder β] (l : List β) (a : β) :
    ∀ x ∈ l, l.foldl min a ≤ x := by
  induction l generalizing a with
  | nil => intro x hx; exact absurd hx (List.not_mem_nil x)
  | cons y ys ih =>
    intro x hx
    rcases List.mem_cons.mp hx with rfl | hx'
    · exact le_trans (foldl_min_le_init ys (min a x)) (min_le_right a x)
    · exact ih (min a y) x hx'

theorem init_le_foldl_max {β : Type} [LinearOrder β] (l : List β) (a : β) :
    a ≤ l.foldl max a := by
  induction l generalizing a with
  | nil => exact le_refl a
  | cons y ys ih => exact le_trans (le_max_left a y) (ih (max a y))

theorem mem_le_foldl_max {β : Type} [LinearOrder β] (l : List β) (a : β) :
    ∀ x ∈ l, x ≤ l.foldl max a := by
  induction l generalizing a with
  | nil => intro x hx; exact absurd hx (List.not_mem_nil x)
  | cons y ys ih =>
    intro x hx
    rcases List.mem_cons.mp hx with rfl | hx'
    · exact le_trans (le_max_right a x) (init_le_foldl_max ys (max a x))
    · exact ih (max a y) x hx'

/-- C9: `normalize_scores` maps the empty list to the empty list; it
preserves length; every output value lies in `[0, 1]`; an all-equal input
(`max == min`) maps to all ones; and `normalize_scores [5, 5, 5] = [1, 1, 1]`. -/
theorem c9_normalize_scores :
    normalize_scores [] = [] ∧
    (∀ l : List ℚ, (normalize_scores l).length = l.length) ∧
    (∀ l : List ℚ, List.Forall inUnitInterval (normalize_scores l)) ∧
    (∀ (s : ℚ) (rest : List ℚ), rest.foldl max s = rest.foldl min s →
      normalize_scores (s :: rest) = List.replicate (s :: rest).length 1) ∧
    normalize_scores [5, 5, 5] = [1, 1, 1] := by
  have hflat : ∀ (s : ℚ) (rest : List ℚ), rest.foldl max s = rest.foldl min s →
      normalize_scores (s :: rest) = List.replicate (s :: rest).length 1 := by
    intro s rest heq
    rw [normalize_scores, if_pos heq]
  refine ⟨rfl, ?_, ?_, hflat, ?_⟩
  · intro l
    match l with
    | [] => rfl
    | s :: rest =>
      rw [normalize_scores]
      split
      · rw [List.length_replicate]
      · rw [List.length_map]
  · intro l
    rw [List.forall_iff_forall_mem]
    intro x hx
    match l with
    | [] => exact absurd hx (List.not_mem_nil x)
    | s :: rest =>
      rw [normalize_scores] at hx
      rcases em (rest.foldl max s = rest.foldl min s) with heq | hne
      · rw [if_pos heq] at hx
        rw [List.eq_of_mem_replicate hx]
        exact ⟨by norm_num, le_refl 1⟩
      · rw [if_neg hne] at hx
        rcases List.mem_map.mp hx with ⟨y, hy, rfl⟩
        have hmin : rest.foldl min s ≤ y := by
          rcases List.mem_cons.mp hy with rfl | hy'
          · exact foldl_min_le_init rest y
          · exact foldl_min_le_mem rest s y hy'
        have hmax : y ≤ rest.foldl max s := by
          rcases List.mem_cons.mp hy with rfl | hy'
          · exact init_le_foldl_max rest y
          · exact mem_le_foldl_max rest s y hy'
        have hlt : rest.foldl min s < rest.foldl max s :=
          lt_of_le_of_ne (le_trans hmin hmax) (fun hcontra => hne hcontra.symm)
        constructor
        · exact div_nonneg (by linarith) (by linarith)
        · rw [div_le_one (by linarith)]
          linarith
  · have : normalize_scores [5, 5, 5] = List.replicate 3 1 :=
      hflat 5 [5, 5] (by simp)
    rw [this]
    rfl

theorem c9_witness :
    ([5, 5] : List ℚ).foldl max 5 = [5, 5].foldl min 5 ∧
    normalize_scores [5, 5, 5] = List.replicate 3 1 ∧
    List.Forall inUnitInterval (normalize_scores [3, 5]) :=
  ⟨by simp, c9_normalize_scores.2.2.2.1 5 [5, 5] (by simp),
    c9_normalize_scores.2.2.1 [3, 5]⟩

/-! ## BM25 lemmas -/

theorem BM25Retriever.avg_doc_length_nonneg (r : BM25Retriever) :
    0 ≤ r.avg_doc_length :=
  div_nonneg (Nat.cast_nonneg _) (Nat.cast_nonneg _)

theorem BM25Retriever.length_norm_nonneg (r : BM25Retriever) (hb0 : 0 ≤ r.b)
    (hb1 : r.b ≤ 1) (doc_length : ℕ) : 0 ≤ r.length_norm doc_length := by
  have h1 : (0 : ℝ) ≤ (doc_length : ℝ) / r.avg_doc_length :=
    div_nonneg (Nat.cast_nonneg _) r.avg_doc_length_nonneg
  have h2 : (0 : ℝ) ≤ r.b * ((doc_length : ℝ) / r.avg_doc_length) := mul_nonneg hb0 h1
  rw [BM25Retriever.length_norm]
  linarith

theorem BM25Retriever.df_le_length (r : BM25Retriever) (t : String) :
    r.df t ≤ r.tokenized_docs.length :=
  List.length_filter_le _ _

theorem BM25Retriever.raw_idf_pos (r : BM25Retriever) (t : String) (h : 0 < r.df t) :
    0 < r.raw_idf t := by
  rw [BM25Retriever.raw_idf]
  apply Real.log_pos
  have hle : (r.df t : ℝ) ≤ (r.tokenized_docs.length : ℝ) :=
    Nat.cast_le.mpr (r.df_le_length t)
  have hnum : (0 : ℝ) < (r.tokenized_docs.length : ℝ) - (r.df t : ℝ) + 0.5 := by linarith
  have hden : (0 : ℝ) < (r.df t : ℝ) + 0.5 := by positivity
  have := div_pos hnum hden
  linarith

theorem BM25Retriever.idf_pos (r : BM25Retriever) (t : String) (h : 0 < r.df t) :
    0 < r.idf t :=
  lt_of_lt_of_le (r.raw_idf_pos t h) (le_max_left _ _)

theorem BM25Retriever.token_contribution_nonneg (r : BM25Retriever) (idfv : ℝ)
    (tf doc_length : ℕ) (hidf : 0 ≤ idfv) (hk : 0 ≤ r.k1)
    (hb0 : 0 ≤ r.b) (hb1 : r.b ≤ 1) :
    0 ≤ r.token_contribution idfv tf doc_length := by
  rw [BM25Retriever.token_contribution]
  apply div_nonneg
  · exact mul_nonneg hidf (mul_nonneg (Nat.cast_nonneg _) (by linarith))
  · exact add_nonneg (Nat.cast_nonneg _)
      (mul_nonneg hk (r.length_norm_nonneg hb0 hb1 doc_length))

theorem BM25Retriever.token_contribution_pos (r : BM25Retriever) (idfv : ℝ)
    (tf doc_length : ℕ) (hidf : 0 < idfv) (hk : 0 ≤ r.k1)
    (hb0 : 0 ≤ r.b) (hb1 : r.b ≤ 1) (htf : 0 < tf) :
    0 < r.token_contribution idfv tf doc_length := by
  rw [BM25Retriever.token_contribution]
  apply div_pos
  · exact mul_pos hidf (mul_pos (Nat.cast_pos.mpr htf) (by linarith))
  · exact lt_of_lt_of_le (Nat.cast_pos.mpr htf) (le_add_of_nonneg_right
      (mul_nonneg hk (r.length_norm_nonneg hb0 hb1 doc_length)))

theorem BM25Retriever.le_score_step (r : BM25Retriever) (doc_tokens : List String)
    (doc_length : ℕ) (hk : 0 ≤ r.k1) (hb0 : 0 ≤ r.b) (hb1 : r.b ≤ 1)
    (score : ℝ) (token : String) :
    score ≤ r.score_step doc_tokens doc_length score token := by
  rw [BM25Retriever.score_step]
  split
  · rename_i hcond
    exact le_add_of_nonneg_right (r.token_contribution_nonneg _ _ _
      (le_of_lt (r.idf_pos token hcond.2)) hk hb0 hb1)
  · exact le_refl score

theorem BM25Retriever.le_foldl_score_step (r : BM25Retriever) (doc_tokens : List String)
    (doc_length : ℕ) (hk : 0 ≤ r.k1) (hb0 : 0 ≤ r.b) (hb1 : r.b ≤ 1)
    (query_tokens : List String) (score : ℝ) :
    score ≤ query_tokens.foldl (r.score_step doc_tokens doc_length) score := by
  induction query_tokens generalizing score with
  | nil => exact le_refl score
  | cons t ts ih =>
    exact le_trans (r.le_score_step doc_tokens doc_length hk hb0 hb1 score t) (ih _)

theorem BM25Retriever.score_document_nonneg (r : BM25Retriever)
    (query_tokens doc_tokens : List String) (doc_length : ℕ)
    (hk : 0 ≤ r.k1) (hb0 : 0 ≤ r.b) (hb1 : r.b ≤ 1) :
    0 ≤ r.score_document query_tokens doc_tokens doc_length :=
  r.le_foldl_score_step doc_tokens doc_length hk hb0 hb1 query_tokens 0

theorem BM25Retriever.foldl_score_step_of_no_match (r : BM25Retriever)
    (doc_tokens : List String) (doc_length : ℕ) (query_tokens : List String) (score : ℝ)
    (h : ∀ t ∈ query_tokens, ¬(0 < doc_tokens.count t ∧ 0 < r.df t)) :
    query_tokens.foldl (r.score_step doc_tokens doc_length) score = score := by
  induction query_tokens generalizing score with
  | nil => rfl
  | cons t ts ih =>
    have hstep : r.score_step doc_tokens doc_length score t = score := by
      rw [BM25Retriever.score_step, if_neg (h t (by simp))]
    show ts.foldl (r.score_step doc_tokens doc_length)
      (r.score_step doc_tokens doc_length score t) = score
    rw [hstep]
    exact ih _ (fun u hu => h u (List.mem_cons_of_mem t hu))

theorem BM25Retriever.score_document_zero (r : BM25Retriever)
    (query_tokens doc_tokens : List String) (doc_length : ℕ)
    (h : ∀ t ∈ query_tokens, ¬(0 < doc_tokens.count t ∧ 0 < r.df t)) :
    r.score_document query_tokens doc_tokens doc_length = 0 :=
  r.foldl_score_step_of_no_match doc_tokens doc_length query_tokens 0 h

theorem BM25Retriever.foldl_score_step_pos (r : BM25Retriever)
    (doc_tokens : List String) (doc_length : ℕ)
    (hk : 0 ≤ r.k1) (hb0 : 0 ≤ r.b) (hb1 : r.b ≤ 1)
    (query_tokens : List String) (score : ℝ) (hscore : 0 ≤ score)
    (h : ∃ t ∈ query_tokens, 0 < doc_tokens.count t ∧ 0 < r.df t) :
    0 < query_tokens.foldl (r.score_step doc_tokens doc_length) score := by
  induction query_tokens generalizing score with
  | nil => rcases h with ⟨t, ht, -⟩; exact absurd ht (List.not_mem_nil t)
  | cons t ts ih =>
    show 0 < ts.foldl (r.score_step doc_tokens doc_length)
      (r.score_step doc_tokens doc_length score t)
    rcases em (0 < doc_tokens.count t ∧ 0 < r.df t) with hcond | hcond
    · have hpos : 0 < r.score_step doc_tokens doc_length score t := by
        rw [BM25Retriever.score_step, if_pos hcond]
        exact add_pos_of_nonneg_of_pos hscore (r.token_contribution_pos _ _ _
          (r.idf_pos t hcond.2) hk hb0 hb1 hcond.1)
      exact lt_of_lt_of_le hpos
        (r.le_foldl_score_step doc_tokens doc_length hk hb0 hb1 ts _)
    · have hwit : ∃ u ∈ ts, 0 < doc_tokens.count u ∧ 0 < r.df u := by
        rcases h with ⟨u, hu, hcondu⟩
        rcases List.mem_cons.mp hu with rfl | hu'
        · exact absurd hcondu hcond
        · exact ⟨u, hu', hcondu⟩
      have hstep : r.score_step doc_tokens doc_length score t = score := by
        rw [BM25Retriever.score_step, if_neg hcond]
      rw [hstep]
      exact ih _ hscore hwit

theorem BM25Retriever.score_document_pos (r : BM25Retriever)
    (query_tokens doc_tokens : List String) (doc_length : ℕ)
    (hk : 0 ≤ r.k1) (hb0 : 0 ≤ r.b) (hb1 : r.b ≤ 1)
    (h : ∃ t ∈ query_tokens, 0 < doc_tokens.count t ∧ 0 < r.df t) :
    0 < r.score_document query_tokens doc_tokens doc_length :=
  r.foldl_score_step_pos doc_tokens doc_length hk hb0 hb1 query_tokens 0 (le_refl 0) h

theorem pairwise_trivial {γ : Type} {Rel : γ → γ → Prop} (hR : ∀ a b, Rel a b) :
    ∀ l : List γ, l.Pairwise Rel := by
  intro l
  induction l with
  | nil => exact List.Pairwise.nil
  | cons x xs ih => exact List.Pairwise.cons (fun y _ => hR x y) ih

/-! ## Claims about the BM25 ranker -/

/-- C2: over the three scenario documents with default parameters, the
query `"深度学习医学图像"` retrieves document index 0 as its single
(top-scored) result with `top_k = 1`. -/
theorem c2_end_to_end :
    (scenarioRetriever.retrieve "深度学习医学图像" 1).map Prod.fst = [0] := by
  have hk : (0 : ℝ) ≤ scenarioRetriever.k1 := by show (0 : ℝ) ≤ 1.2; norm_num
  have hb0 : (0 : ℝ) ≤ scenarioRetriever.b := by show (0 : ℝ) ≤ 0.75; norm_num
  have hb1 : scenarioRetriever.b ≤ 1 := by show (0.75 : ℝ) ≤ 1; norm_num
  have hs1 : scenarioRetriever.score_document (tokenize "深度学习医学图像")
      (tokenize "卷积神经网络在计算机视觉中的研究")
      (tokenize "卷积神经网络在计算机视觉中的研究").length = 0 :=
    scenarioRetriever.score_document_zero _ _ _ (by decide)
  have hs2 : scenarioRetriever.score_document (tokenize "深度学习医学图像")
      (tokenize "自然语言处理技术的发展与挑战")
      (tokenize "自然语言处理技术的发展与挑战").length = 0 :=
    scenarioRetriever.score_document_zero _ _ _ (by decide)
  have hs0 : 0 < scenarioRetriever.score_document (tokenize "深度学习医学图像")
      (tokenize "深度学习在医学图像分割中的应用")
      (tokenize "深度学习在医学图像分割中的应用").length :=
    scenarioRetriever.score_document_pos _ _ _ hk hb0 hb1 ⟨"深", by decide, by decide⟩
  simp only [BM25Retriever.retrieve]
  show ((sortByScoreDesc
      [(0, scenarioRetriever.score_document (tokenize "深度学习医学图像")
          (tokenize "深度学习在医学图像分割中的应用")
          (tokenize "深度学习在医学图像分割中的应用").length),
       (1, scenarioRetriever.score_document (tokenize "深度学习医学图像")
          (tokenize "卷积神经网络在计算机视觉中的研究")
          (tokenize "卷积神经网络在计算机视觉中的研究").length),
       (2, scenarioRetriever.score_document (tokenize "深度学习医学图像")
          (tokenize "自然语言处理技术的发展与挑战")
          (tokenize "自然语言处理技术的发展与挑战").length)]).take 1).map Prod.fst = [0]
  rw [hs1, hs2]
  have hpw : List.Pairwise (fun a b => b.2 ≤ a.2)
      [(0, scenarioRetriever.score_document (tokenize "深度学习医学图像")
          (tokenize "深度学习在医学图像分割中的应用")
          (tokenize "深度学习在医学图像分割中的应用").length),
       (1, (0 : ℝ)), (2, (0 : ℝ))] := by
    refine List.Pairwise.cons (fun y hy => ?_)
      (List.Pairwise.cons (fun y hy => ?_)
        (List.Pairwise.cons (fun y hy => absurd hy (List.not_mem_nil y)) List.Pairwise.nil))
    · rcases List.mem_cons.mp hy with rfl | hy'
      · exact le_of_lt hs0
      · rcases List.mem_cons.mp hy' with rfl | hy''
        · exact le_of_lt hs0
        · exact absurd hy'' (List.not_mem_nil y)
    · rcases List.mem_cons.mp hy with rfl | hy'
      · exact le_refl _
      · exact absurd hy' (List.not_mem_nil y)
  rw [sortByScoreDesc_of_sorted hpw]
  rfl

/-- C6: a query sharing no token with the ranker's vocabulary (in
particular the empty query) retrieves every document in original index
order with score `0.0`, truncated to `top_k`. -/
theorem c6_degenerate_query (r : BM25Retriever) (query : String) (top_k : ℕ)
    (h : noVocabOverlap r query = true) :
    r.retrieve query top_k = (zeroScored r.documents.length).take top_k := by
  have hz : ∀ t ∈ tokenize query, r.df t = 0 := by
    intro t ht
    simpa using List.all_eq_true.mp h t ht
  simp only [BM25Retriever.retrieve]
  have hmap : r.tokenized_docs.enum.map
      (fun p => (p.1, r.score_document (tokenize query) p.2 p.2.length)) =
      zeroScored r.documents.length := by
    have h1 : r.tokenized_docs.enum.map
        (fun p => (p.1, r.score_document (tokenize query) p.2 p.2.length)) =
        r.tokenized_docs.enum.map (fun p : ℕ × List String => (p.1, (0 : ℝ))) :=
      List.map_congr_left (fun p _ => by
        rw [r.score_document_zero (tokenize query) p.2 p.2.length
          (fun t ht hcond => absurd hcond.2 (by rw [hz t ht]; exact lt_irrefl 0))])
    have h2 : r.tokenized_docs.enum.map (fun p : ℕ × List String => (p.1, (0 : ℝ))) =
        (r.tokenized_docs.enum.map Prod.fst).map (fun i => (i, (0 : ℝ))) :=
      (List.map_map (fun i => (i, (0 : ℝ))) Prod.fst r.tokenized_docs.enum).symm
    rw [h1, h2, List.enum_map_fst, zeroScored, BM25Retriever.tokenized_docs, List.length_map]
  have hpw : (zeroScored r.documents.length).Pairwise (fun a b => b.2 ≤ a.2) := by
    rw [zeroScored, List.pairwise_map]
    exact pairwise_trivial (fun a b => le_refl 0) _
  rw [hmap, sortByScoreDesc_of_sorted hpw]

theorem c6_witness :
    noVocabOverlap scenarioRetriever "" = true ∧
    scenarioRetriever.retrieve "" 5 = (zeroScored 3).take 5 :=
  ⟨by decide, c6_degenerate_query scenarioRetriever "" 5 (by decide)⟩

/-- C8: for a fixed positive idf weight and fixed document length, the
per-token BM25 contribution computed by `_score_document` is
non-decreasing in the term frequency, for every `k1 > 0` and `0 ≤ b ≤ 1`. -/
theorem c8_tf_monotone (r : BM25Retriever) (idfv : ℝ) (doc_length : ℕ) (tf1 tf2 : ℕ)
    (hidf : 0 < idfv) (hk : 0 < r.k1) (hb0 : 0 ≤ r.b) (hb1 : r.b ≤ 1)
    (h : tf1 ≤ tf2) :
    r.token_contribution idfv tf1 doc_length ≤ r.token_contribution idfv tf2 doc_length := by
  have hL : 0 ≤ r.length_norm doc_length := r.length_norm_nonneg hb0 hb1 doc_length
  have hc : 0 ≤ r.k1 * r.length_norm doc_length := mul_nonneg (le_of_lt hk) hL
  have hk1 : (0 : ℝ) ≤ r.k1 + 1 := by linarith
  rw [BM25Retriever.token_contribution, BM25Retriever.token_contribution]
  rcases eq_or_lt_of_le (add_nonneg (Nat.cast_nonneg tf1) hc :
      (0 : ℝ) ≤ (tf1 : ℝ) + r.k1 * r.length_norm doc_length) with h0 | h0
  · have htf1 : (tf1 : ℝ) = 0 := by
      have h1 : (0 : ℝ) ≤ (tf1 : ℝ) := Nat.cast_nonneg tf1
      linarith
    rw [htf1, zero_mul, mul_zero, zero_div]
    exact div_nonneg (mul_nonneg (le_of_lt hidf) (mul_nonneg (Nat.cast_nonneg _) hk1))
      (add_nonneg (Nat.cast_nonneg _) hc)
  · have h2 : (0 : ℝ) < (tf2 : ℝ) + r.k1 * r.length_norm doc_length :=
      lt_of_lt_of_le h0 (add_le_add_right (Nat.cast_le.mpr h) _)
    rw [div_le_div_iff₀ h0 h2]
    have key0 : (tf1 : ℝ) * (r.k1 * r.length_norm doc_length) ≤
        (tf2 : ℝ) * (r.k1 * r.length_norm doc_length) :=
      mul_le_mul_of_nonneg_right (Nat.cast_le.mpr h) hc
    have key : (tf1 : ℝ) * ((tf2 : ℝ) + r.k1 * r.length_norm doc_length) ≤
        (tf2 : ℝ) * ((tf1 : ℝ) + r.k1 * r.length_norm doc_length) := by
      nlinarith [key0]
    calc idfv * ((tf1 : ℝ) * (r.k1 + 1)) * ((tf2 : ℝ) + r.k1 * r.length_norm doc_length)
        = (idfv * (r.k1 + 1)) *
          ((tf1 : ℝ) * ((tf2 : ℝ) + r.k1 * r.length_norm doc_length)) := by ring
      _ ≤ (idfv * (r.k1 + 1)) *
          ((tf2 : ℝ) * ((tf1 : ℝ) + r.k1 * r.length_norm doc_length)) :=
          mul_le_mul_of_nonneg_left key (mul_nonneg (le_of_lt hidf) hk1)
      _ = idfv * ((tf2 : ℝ) * (r.k1 + 1)) * ((tf1 : ℝ) + r.k1 * r.length_norm doc_length) := by
          ring

theorem c8_witness :
    (0 : ℝ) < 1 ∧ (1 : ℕ) ≤ 2 ∧
    scenarioRetriever.token_contribution 1 1 15 ≤
      scenarioRetriever.token_contribution 1 2 15 :=
  ⟨by norm_num, by norm_num,
    c8_tf_monotone scenarioRetriever 1 15 1 2 (by norm_num)
      (by show (0 : ℝ) < 1.2; norm_num) (by show (0 : ℝ) ≤ 0.75; norm_num)
      (by show (0.75 : ℝ) ≤ 1; norm_num) (by norm_num)⟩

/-- C10: every score returned by `retrieve` is non-negative, for every
ranker over a non-empty document collection with parameters in the BM25
domain (`0 ≤ k1`, `0 ≤ b ≤ 1`; `epsilon` unconstrained, since the idf
floor `max(raw_idf, max_idf * epsilon)` never lowers a positive raw idf). -/
theorem c10_nonneg_scores (r : BM25Retriever) (query : String) (top_k : ℕ)
    (hne : r.documents ≠ []) (hk : 0 ≤ r.k1) (hb0 : 0 ≤ r.b) (hb1 : r.b ≤ 1) :
    nonnegScores (r.retrieve query top_k) := by
  rw [nonnegScores, List.forall_iff_forall_mem]
  intro x hx
  simp only [BM25Retriever.retrieve] at hx
  have hx1 : x ∈ sortByScoreDesc (r.tokenized_docs.enum.map
      (fun p => (p.1, r.score_document (tokenize query) p.2 p.2.length))) :=
    List.mem_of_mem_take hx
  have hx2 : x ∈ r.tokenized_docs.enum.map
      (fun p => (p.1, r.score_document (tokenize query) p.2 p.2.length)) :=
    (sortByScoreDesc_perm _).mem_iff.mp hx1
  rcases List.mem_map.mp hx2 with ⟨p, hp, rfl⟩
  exact r.score_document_nonneg _ _ _ hk hb0 hb1

theorem c10_witness :
    scenarioRetriever.documents ≠ [] ∧
    nonnegScores (scenarioRetriever.retrieve "深度学习" 5) :=
  ⟨by decide,
    c10_nonneg_scores scenarioRetriever "深度学习" 5 (by decide)
      (by show (0 : ℝ) ≤ 1.2; norm_num) (by show (0 : ℝ) ≤ 0.75; norm_num)
      (by show (0.75 : ℝ) ≤ 1; norm_num)⟩

end HybridRetriever
